import Mathlib

/-!
Shallow embedding of the nahcloud-server Terraform state backend and chaos
injection subsystems, translated from the Go sources:
  service/tfstate.go        (state protocol engine)
  api/router.go             (TFState HTTP handlers)
  storage/sqlite/metadata_repository.go  (key-value substrate)
  service/chaos/chaos.go    (chaos engine)
External collaborators (the JSON codec, the seeded pseudo-random generator,
the SQL engine, wall-clock sleeping) are modelled as explicit parameters or
pure data: JSON unmarshalling of lock payloads is an arbitrary function
`parse : String -> Option TFStateLock`, randomness is an abstract state
machine `RngModel`, sleeps are recorded as a list of requested millisecond
durations, and the metadata SQL table is an in-memory list of rows plus a
fresh-id counter standing for `uuid.New()`.
Row timestamps (created_at, updated_at) are elided: no behaviour under
verification reads them.
-/

namespace Nah

/-! ## String helpers (models of Go stdlib calls used by the sources) -/

/-- Model of Go `strings.ToLower` (ASCII lowering, as used on header and
env values in chaos.go). -/
def lowerStr (s : String) : String := ⟨s.data.map Char.toLower⟩

/-- Digit-run accumulator for `atoi`. -/
def digitsVal : List Char → Option Nat
  | [] => none
  | cs => go cs 0
where
  go : List Char → Nat → Option Nat
    | [], acc => some acc
    | c :: rest, acc => if c.isDigit then go rest (acc * 10 + (c.toNat - 48)) else none

/-- Model of Go `strconv.Atoi`: optional sign followed by at least one
decimal digit, nothing else. (64-bit overflow failure is elided: every
value under verification is small.) -/
def atoi (s : String) : Option Int :=
  match s.data with
  | [] => none
  | '-' :: rest => (digitsVal rest).map (fun n => -(n : Int))
  | '+' :: rest => (digitsVal rest).map (fun n => (n : Int))
  | cs => (digitsVal cs).map (fun n => (n : Int))

/-- Model of the SQL prefix pattern (path LIKE pre followed by the
percent wildcard) used by MetadataRepository.List: character-sequence
prefix match. (A wildcard
inside `pre` only widens the match set; the one caller filters for exact
path equality afterwards, so the widening is unobservable.) -/
def strStartsWith (s pre : String) : Bool := pre.data.isPrefixOf s.data

/-! ## Domain model (domain/models.go, domain error taxonomy) -/

/-- Error taxonomy of domain.NahError, restricted to the codes produced by
the code under verification. -/
inductive NahError where
  | notFound (entity id : String)
  | alreadyExists (entity field value : String)
  | invalidInput (msg : String)
  | internal (msg : String)
  | serviceUnavailable (msg : String)
  | tooManyRequests (msg : String)
  | unauthorized (msg : String)
deriving Repr, DecidableEq

/-- Model of domain.IsNotFound. -/
def NahError.isNotFound : NahError → Bool
  | .notFound _ _ => true
  | _ => false

/-- domain.TFStateLock: the lock payload fields fixed by the Terraform
HTTP backend contract. Created is kept as a string (time.Time elided:
only ID is ever read by the code under verification). -/
structure TFStateLock where
  ID : String
  Operation : String := ""
  Info : String := ""
  Who : String := ""
  Version : String := ""
  Created : String := ""
  Path : String := ""
deriving Repr, DecidableEq

/-- One row of the metadata table (domain.Metadata sans timestamps). -/
structure Metadata where
  ID : String
  Path : String
  Value : String
deriving Repr, DecidableEq

/-! ## Key-value substrate (storage/sqlite/metadata_repository.go) -/

/-- The metadata table: rows in insertion order plus a counter standing in
for the `uuid.New()` fresh-id supply. -/
structure Store where
  entries : List Metadata
  nextID : Nat
deriving Repr, DecidableEq

/-- Fresh row id for a Create (stands for `uuid.New().String()`). -/
def freshID (st : Store) : String := "meta-" ++ toString st.nextID

/-- MetadataRepository.pathExists: COUNT of rows with the exact path. -/
def pathExists (st : Store) (p : String) : Bool :=
  st.entries.any (fun m => m.Path = p)

/-- MetadataRepository.Create: refuses a duplicate path, otherwise inserts
a new row with a fresh id. -/
def createMetadata (st : Store) (p v : String) : Except NahError (Metadata × Store) :=
  if pathExists st p then
    .error (.alreadyExists "metadata" "path" p)
  else
    let m : Metadata := ⟨freshID st, p, v⟩
    .ok (m, ⟨st.entries ++ [m], st.nextID + 1⟩)

/-- MetadataRepository.GetByID: first row with the given id, NotFound
otherwise. -/
def getByID (st : Store) (id : String) : Except NahError Metadata :=
  match st.entries.find? (fun m => m.ID = id) with
  | some m => .ok m
  | none => .error (.notFound "metadata" id)

/-- MetadataRepository.Update: loads the row, refuses a path change onto an
occupied path, then issues `UPDATE ... WHERE id = ?` (modelled as updating
every row carrying that id, exactly like the SQL statement). -/
def updateMetadata (st : Store) (id : String) (pathReq valueReq : Option String) :
    Except NahError (Metadata × Store) :=
  match getByID st id with
  | .error e => .error e
  | .ok existing =>
    let pathClash : Bool :=
      match pathReq with
      | some p => decide (p ≠ existing.Path) && pathExists st p
      | none => false
    if pathClash then
      .error (.alreadyExists "metadata" "path" (pathReq.getD ""))
    else
      let newPath := pathReq.getD existing.Path
      let newValue := valueReq.getD existing.Value
      let updated : Metadata := ⟨existing.ID, newPath, newValue⟩
      .ok (updated,
        ⟨st.entries.map (fun m => if m.ID = id then ⟨m.ID, newPath, newValue⟩ else m),
         st.nextID⟩)

/-- MetadataRepository.Delete: loads the row (NotFound if absent), then
issues `DELETE ... WHERE id = ?` (removing every row carrying that id). -/
def deleteMetadata (st : Store) (id : String) : Except NahError Store :=
  match getByID st id with
  | .error e => .error e
  | .ok _ => .ok ⟨st.entries.filter (fun m => m.ID ≠ id), st.nextID⟩

/-- MetadataRepository.List restricted to the prefix option: all rows when
the prefix is empty, else the rows whose path starts with it. The SQL
`ORDER BY path` is elided: the one caller in scope selects by exact path
equality, and the stores under verification keep paths unique. -/
def listMetadata (st : Store) (pre : String) : List Metadata :=
  if pre = "" then st.entries
  else st.entries.filter (fun m => strStartsWith m.Path pre)

/-- Well-formedness maintained by the repository: row paths are unique
(Create refuses duplicates) and row ids are unique (uuid supply). -/
def Store.Wf (st : Store) : Prop :=
  (st.entries.map (fun m => m.Path)).Nodup ∧ (st.entries.map (fun m => m.ID)).Nodup

instance (st : Store) : Decidable st.Wf := by
  unfold Store.Wf
  infer_instance

/-! ## State protocol engine (service/tfstate.go) -/

/-- tfStatePath. -/
def tfStatePath (stateID : String) : String := "tfstate/" ++ stateID

/-- tfStateLockPath. -/
def tfStateLockPath (stateID : String) : String := "tfstate/" ++ stateID ++ ".lock"

/-- Service.metadataByExactPath: prefix-list then first exact match. -/
def metadataByExactPath (st : Store) (path : String) : Except NahError Metadata :=
  match (listMetadata st path).find? (fun m => m.Path = path) with
  | some m => .ok m
  | none => .error (.notFound "metadata" path)

/-- Service.GetTFState. -/
def getTFState (st : Store) (stateID : String) : Except NahError String :=
  match metadataByExactPath st (tfStatePath stateID) with
  | .error e => .error e
  | .ok m => .ok m.Value

/-- Service.SetTFState: create on NotFound, otherwise update the value of
the found row by its id. -/
def setTFState (st : Store) (stateID stateJSON : String) : Except NahError Store :=
  match metadataByExactPath st (tfStatePath stateID) with
  | .error e =>
    if e.isNotFound then
      match createMetadata st (tfStatePath stateID) stateJSON with
      | .error e2 => .error e2
      | .ok ms => .ok ms.2
    else .error e
  | .ok m =>
    match updateMetadata st m.ID none (some stateJSON) with
    | .error e2 => .error e2
    | .ok ms => .ok ms.2

/-- Service.DeleteTFState: no-op success when absent. -/
def deleteTFState (st : Store) (stateID : String) : Except NahError Store :=
  match metadataByExactPath st (tfStatePath stateID) with
  | .error e => if e.isNotFound then .ok st else .error e
  | .ok m => deleteMetadata st m.ID

/-- Service.GetTFStateLock: raw payload plus best-effort parse; an
unparseable payload still yields the raw value with no parsed lock.
`parse` stands for `json.Unmarshal` into domain.TFStateLock. -/
def getTFStateLock (parse : String → Option TFStateLock) (st : Store) (stateID : String) :
    Except NahError (String × Option TFStateLock) :=
  match metadataByExactPath st (tfStateLockPath stateID) with
  | .error e => .error e
  | .ok m =>
    match parse m.Value with
    | none => .ok (m.Value, none)
    | some li => .ok (m.Value, some li)

/-- Service.TryLockTFState: creates the lock row when absent, otherwise
reports the existing payload without overwriting. The result triple is
(alreadyLocked, existingLockJSON, resulting store). -/
def tryLockTFState (st : Store) (stateID lockJSON : String) :
    Except NahError (Bool × String × Store) :=
  match metadataByExactPath st (tfStateLockPath stateID) with
  | .error e =>
    if e.isNotFound then
      match createMetadata st (tfStateLockPath stateID) lockJSON with
      | .error e2 => .error e2
      | .ok ms => .ok (false, "", ms.2)
    else .error e
  | .ok m => .ok (true, m.Value, st)

/-- Service.UnlockTFState: removes the lock row when present and returns
its payload; (false, empty) with no error when absent. -/
def unlockTFState (st : Store) (stateID : String) :
    Except NahError (Bool × String × Store) :=
  match metadataByExactPath st (tfStateLockPath stateID) with
  | .error e => if e.isNotFound then .ok (false, "", st) else .error e
  | .ok m =>
    match deleteMetadata st m.ID with
    | .error e2 => .error e2
    | .ok st2 => .ok (true, m.Value, st2)

/-! ## HTTP boundary for the state protocol (api/router.go TFState handlers)

Authentication is elided (every modelled request is authorized: no claim
concerns the bearer-token check) and the JSON error envelope written by
Handler.writeError is elided down to its status code, which is all the
claims observe. A query parameter read through `r.URL.Query().Get` yields
the empty string both when absent and when set empty, so the provided lock
id is modelled as a plain string with the empty string meaning absent. -/

/-- An HTTP response: status code plus raw body. -/
structure HttpResponse where
  status : Nat
  body : String
deriving Repr, DecidableEq

/-- Status mapping of Handler.writeError (body elided: no claim reads an
error-envelope body). -/
def writeError (e : NahError) : HttpResponse :=
  match e with
  | .notFound _ _ => ⟨404, ""⟩
  | .alreadyExists _ _ _ => ⟨409, ""⟩
  | .invalidInput _ => ⟨400, ""⟩
  | .unauthorized _ => ⟨401, ""⟩
  | .tooManyRequests _ => ⟨429, ""⟩
  | .serviceUnavailable _ => ⟨503, ""⟩
  | .internal _ => ⟨500, ""⟩

/-- The body of Handler.TFStatePost past the lock check: create or
overwrite the state entry with the request body. -/
def tfStatePostProceed (st : Store) (stateID body : String) : HttpResponse × Store :=
  match setTFState st stateID body with
  | .ok st2 => (⟨200, ""⟩, st2)
  | .error e => (writeError e, st)

/-- Handler.TFStatePost: enforce the lock when one exists and parses, then
create or overwrite the state entry with the request body. -/
def tfStatePost (parse : String → Option TFStateLock) (st : Store)
    (stateID providedID body : String) : HttpResponse × Store :=
  match getTFStateLock parse st stateID with
  | .ok (rawLock, some li) =>
    if providedID = "" ∨ providedID ≠ li.ID then (⟨423, rawLock⟩, st)
    else tfStatePostProceed st stateID body
  | _ => tfStatePostProceed st stateID body

/-- The body of Handler.TFStateDelete past the lock check. -/
def tfStateDeleteProceed (st : Store) (stateID : String) : HttpResponse × Store :=
  match deleteTFState st stateID with
  | .ok st2 => (⟨200, ""⟩, st2)
  | .error e => (writeError e, st)

/-- Handler.TFStateDelete: enforce the lock when one exists and parses,
then delete the state entry. -/
def tfStateDelete (parse : String → Option TFStateLock) (st : Store)
    (stateID providedID : String) : HttpResponse × Store :=
  match getTFStateLock parse st stateID with
  | .ok (rawLock, some li) =>
    if providedID = "" ∨ providedID ≠ li.ID then (⟨423, rawLock⟩, st)
    else tfStateDeleteProceed st stateID
  | _ => tfStateDeleteProceed st stateID

/-- Handler.TFStateLock: reject a body without a parseable non-empty ID,
then try to place the lock; 423 with the existing payload on conflict. -/
def tfStateLockHandler (parse : String → Option TFStateLock) (st : Store)
    (stateID body : String) : HttpResponse × Store :=
  match parse body with
  | none => (writeError (.invalidInput "invalid lock payload: missing or invalid ID"), st)
  | some li =>
    if li.ID = "" then
      (writeError (.invalidInput "invalid lock payload: missing or invalid ID"), st)
    else
      match tryLockTFState st stateID body with
      | .error e => (writeError e, st)
      | .ok (locked, existing, st2) =>
        if locked then (⟨423, existing⟩, st) else (⟨200, ""⟩, st2)

/-- Handler.TFStateUnlock: 200 when no lock is found, when the stored
payload does not parse, or when the provided ID matches (unlocking in the
latter two cases); 409 with the raw payload on a parsed mismatch. The
unlock action shared by the success branches: -/
def tfStateUnlockDo (st : Store) (stateID : String) : HttpResponse × Store :=
  match unlockTFState st stateID with
  | .ok (_, _, st2) => (⟨200, ""⟩, st2)
  | .error e => (writeError e, st)

/-- Handler.TFStateUnlock dispatch on the current lock. -/
def tfStateUnlock (parse : String → Option TFStateLock) (st : Store)
    (stateID providedID : String) : HttpResponse × Store :=
  match getTFStateLock parse st stateID with
  | .error _ => (⟨200, ""⟩, st)
  | .ok (rawLock, li?) =>
    match li? with
    | none => tfStateUnlockDo st stateID
    | some li => if providedID = li.ID then tfStateUnlockDo st stateID
      else (⟨409, rawLock⟩, st)

/-! ## Chaos engine (service/chaos/chaos.go)

The seeded `math/rand` generator is an abstract state machine handed in as
a parameter; its two operations mirror the two generator calls the source
makes (`Float64`, producing a value in the unit interval, and `Intn`).
Sleeping is modelled by returning the list of requested sleep durations in
milliseconds (context cancellation only shortens a real sleep, which the
durations-requested view does not observe). `rand.Intn` panics in Go when
its bound is not positive; a reachable panic is modelled as `none`. -/

/-- chaos.LatencyRange (milliseconds, Go ints). -/
structure LatencyRange where
  Min : Int
  Max : Int
deriving Repr, DecidableEq

/-- chaos.Config, restricted to the fields the engine reads at apply time.
The seed is absorbed into the abstract generator model. Float64 rates are
modelled as rationals: the source only ever compares them, never rounds. -/
structure ChaosConfig where
  Enabled : Bool
  GlobalLatencyRange : Option LatencyRange := none
  ProjectsLatencyRange : Option LatencyRange := none
  InstancesLatencyRange : Option LatencyRange := none
  MetadataLatencyRange : Option LatencyRange := none
  ProjectsErrorRate : ℚ := 0
  ProjectsGetErrorRate : ℚ := 0
  InstancesErrorRate : ℚ := 0
  MetadataErrorRate : ℚ := 0
  ErrorTypes : List Int := [503, 500, 429]
  ErrorWeights : List Int := [3, 2, 1]

/-- Abstract model of the shared `rand.Rand`: `float64` is `Float64` and
`intn` is `Intn bound`. Distributional facts are supplied per-theorem as
hypotheses (draws in the unit interval, `intn` below its bound). -/
structure RngModel (σ : Type) where
  float64 : σ → ℚ × σ
  intn : Nat → σ → Nat × σ

/-- The chaos-relevant part of an http.Request: the values of the two
chaos headers, the empty string meaning the header is absent (as
`Header.Get` reports). -/
structure ChaosRequest where
  noChaosHeader : String := ""
  latencyHeader : String := ""

/-- Truthiness as this repository defines it (the accepted true spellings
of chaos.getBoolEnv). -/
def isTruthy (v : String) : Bool :=
  match lowerStr v with
  | "true" => true
  | "1" => true
  | "yes" => true
  | "on" => true
  | _ => false

/-- The range-based tail of ChaosService.applyLatency: resolve the
category override else the global range, draw an offset when the range is
non-degenerate, sleep when positive. Returns requested sleeps and the
generator state. -/
def rangeLatency (R : RngModel σ) (cfg : ChaosConfig)
    (resourceRange : Option LatencyRange) (s : σ) : List Int × σ :=
  let latencyRange :=
    match resourceRange with
    | some r => some r
    | none => cfg.GlobalLatencyRange
  match latencyRange with
  | none => ([], s)
  | some r =>
    let (offset, s1) :=
      if r.Max > r.Min then
        let (k, s1) := R.intn (r.Max - r.Min + 1).toNat s
        ((k : Int), s1)
      else (0, s)
    let latency := r.Min + offset
    (if latency > 0 then [latency] else [], s1)

/-- ChaosService.applyLatency: a forced-latency header that parses to a
positive integer sleeps exactly that long and short-circuits; otherwise
the range-based path runs. -/
def applyLatency (R : RngModel σ) (cfg : ChaosConfig) (req : ChaosRequest)
    (resourceRange : Option LatencyRange) (s : σ) : List Int × σ :=
  if req.latencyHeader ≠ "" then
    match atoi req.latencyHeader with
    | some ms => if ms > 0 then ([ms], s) else rangeLatency R cfg resourceRange s
    | none => rangeLatency R cfg resourceRange s
  else rangeLatency R cfg resourceRange s

/-- The cumulative-weight scan of ChaosService.selectWeightedErrorType:
`none` means the loop fell through to the `types[0]` fallback. -/
def weightedPick : List (Int × Int) → Nat → Int → Option Int
  | [], _, _ => none
  | (ty, w) :: rest, target, cur =>
    if (target : Int) < cur + w then some ty else weightedPick rest target (cur + w)

/-- The body of ChaosService.selectWeightedErrorType over the two
configured lists. Result `none` models the `rand.Intn` panic reached when
the weight total is negative. -/
def selectWeightedCore (R : RngModel σ) (types weights : List Int) (s : σ) :
    Option (Int × σ) :=
  match types with
  | [] => some (500, s)
  | t0 :: _ =>
    if weights.length ≠ types.length then
      let (k, s1) := R.intn types.length s
      some (types.getD k 0, s1)
    else
      let totalWeight := weights.foldl (· + ·) 0
      if totalWeight = 0 then some (t0, s)
      else if totalWeight < 0 then none
      else
        let (target, s1) := R.intn totalWeight.toNat s
        some ((weightedPick (types.zip weights) target 0).getD t0, s1)

/-- ChaosService.selectWeightedErrorType. -/
def selectWeightedErrorType (R : RngModel σ) (cfg : ChaosConfig) (s : σ) :
    Option (Int × σ) :=
  selectWeightedCore R cfg.ErrorTypes cfg.ErrorWeights s

/-- The error constructed for a selected status code (the switch in
ChaosService.maybeInjectError). -/
def errorOfCode (code : Int) : NahError :=
  if code = 429 then .tooManyRequests "chaos: rate limited"
  else if code = 500 then .internal "chaos: internal server error"
  else if code = 503 then .serviceUnavailable "chaos: service unavailable"
  else .internal "chaos: unknown error"

/-- ChaosService.maybeInjectError: short-circuits without drawing when the
rate is not positive; otherwise draws one Float64 and injects unless the
draw exceeds the rate. Outer `none` models a propagated `rand.Intn`
panic. -/
def maybeInjectError (R : RngModel σ) (cfg : ChaosConfig) (errorRate : ℚ) (s : σ) :
    Option (Option NahError × σ) :=
  if errorRate ≤ 0 then some (none, s)
  else
    let ds := R.float64 s
    if ds.1 > errorRate then some (none, ds.2)
    else
      match selectWeightedErrorType R cfg ds.2 with
      | none => none
      | some cs => some (some (errorOfCode cs.1), cs.2)

/-- ChaosService.ApplyProjectsChaos: disabled or bypassed calls return at
once; otherwise latency then error injection, with the GET-specific rate
override. Result: injected error (if any), requested sleeps, generator
state; outer `none` models a propagated panic. -/
def applyProjectsChaos (R : RngModel σ) (cfg : ChaosConfig) (req : ChaosRequest)
    (method : String) (s : σ) : Option (Option NahError × List Int × σ) :=
  if !cfg.Enabled then some (none, [], s)
  else if req.noChaosHeader = "true" then some (none, [], s)
  else
    let (sleeps, s1) := applyLatency R cfg req cfg.ProjectsLatencyRange s
    let errorRate :=
      if method = "GET" ∧ cfg.ProjectsGetErrorRate > 0 then cfg.ProjectsGetErrorRate
      else cfg.ProjectsErrorRate
    match maybeInjectError R cfg errorRate s1 with
    | none => none
    | some (e?, s2) => some (e?, sleeps, s2)

/-- ChaosService.ApplyInstancesChaos. -/
def applyInstancesChaos (R : RngModel σ) (cfg : ChaosConfig) (req : ChaosRequest)
    (s : σ) : Option (Option NahError × List Int × σ) :=
  if !cfg.Enabled then some (none, [], s)
  else if req.noChaosHeader = "true" then some (none, [], s)
  else
    let (sleeps, s1) := applyLatency R cfg req cfg.InstancesLatencyRange s
    match maybeInjectError R cfg cfg.InstancesErrorRate s1 with
    | none => none
    | some (e?, s2) => some (e?, sleeps, s2)

/-- ChaosService.ApplyMetadataChaos. -/
def applyMetadataChaos (R : RngModel σ) (cfg : ChaosConfig) (req : ChaosRequest)
    (s : σ) : Option (Option NahError × List Int × σ) :=
  if !cfg.Enabled then some (none, [], s)
  else if req.noChaosHeader = "true" then some (none, [], s)
  else
    let (sleeps, s1) := applyLatency R cfg req cfg.MetadataLatencyRange s
    match maybeInjectError R cfg cfg.MetadataErrorRate s1 with
    | none => none
    | some (e?, s2) => some (e?, sleeps, s2)

/-! ## Proof support -/

/-- The row a state or lock operation observes: the first row whose path
is exactly `p`. -/
def findPath (st : Store) (p : String) : Option Metadata :=
  st.entries.find? (fun m => m.Path = p)

theorem find?_filter_eq {α : Type} (l : List α) (p q : α → Bool)
    (h : ∀ x, p x = true → q x = true) :
    (l.filter q).find? p = l.find? p := by
  induction l with
  | nil => rfl
  | cons a rest ih =>
    by_cases hq : q a = true
    · rw [List.filter_cons_of_pos hq]
      by_cases hp : p a = true
      · rw [List.find?_cons_of_pos _ hp, List.find?_cons_of_pos _ hp]
      · rw [List.find?_cons_of_neg _ hp, List.find?_cons_of_neg _ hp, ih]
    · have hp : ¬ p a = true := fun hpa => hq (h a hpa)
      rw [List.filter_cons_of_neg (by simpa using hq), List.find?_cons_of_neg _ hp, ih]

theorem strStartsWith_self (p : String) : strStartsWith p p = true := by
  simp [strStartsWith, List.isPrefixOf_iff_prefix]

/-- The prefix listing followed by the exact-match scan observes exactly
the first row with the exact path. -/
theorem metadataByExactPath_eq (st : Store) (p : String) :
    metadataByExactPath st p =
      match findPath st p with
      | some m => .ok m
      | none => .error (.notFound "metadata" p) := by
  unfold metadataByExactPath listMetadata findPath
  by_cases hp : p = ""
  · simp [hp]
  · rw [if_neg hp, find?_filter_eq]
    intro x hx
    have : x.Path = p := by simpa using hx
    rw [this]
    exact strStartsWith_self p

theorem findPath_none_iff_not_pathExists (st : Store) (p : String) :
    findPath st p = none ↔ pathExists st p = false := by
  unfold findPath pathExists
  rw [List.find?_eq_none, List.any_eq_false]

theorem findPath_append_singleton (st : Store) (p : String) (m : Metadata)
    (hfree : findPath st p = none) (hm : m.Path = p) (n : Nat) :
    findPath ⟨st.entries ++ [m], n⟩ p = some m := by
  unfold findPath at hfree ⊢
  rw [List.find?_append, hfree, Option.none_or, List.find?_cons_of_pos _ (by simpa using hm)]

/-- Updating the value of the first row matching a path (through its row
id, as SetTFState does) leaves that row first for the path, now carrying
the new value. Needs unique row ids so the id-keyed SQL update hits only
that row. -/
theorem findPath_after_update (l : List Metadata) (p v : String) (m : Metadata)
    (hfind : l.find? (fun x => x.Path = p) = some m)
    (hids : (l.map (fun x => x.ID)).Nodup) :
    (l.map (fun x => if x.ID = m.ID then ⟨x.ID, m.Path, v⟩ else x)).find?
        (fun x => x.Path = p) = some ⟨m.ID, m.Path, v⟩ := by
  induction l with
  | nil => simp at hfind
  | cons a rest ih =>
    by_cases hp : (a.Path = p)
    · rw [List.find?_cons_of_pos _ (by simpa using hp)] at hfind
      have ham : a = m := by simpa using hfind
      have hid : a.ID = m.ID := by rw [ham]
      have hmp : m.Path = p := by rw [← ham]; exact hp
      rw [List.map_cons, if_pos hid, List.find?_cons_of_pos _ (by simpa using hmp), ham]
    · rw [List.find?_cons_of_neg _ (by simpa using hp)] at hfind
      have hmem : m ∈ rest := List.mem_of_find?_eq_some hfind
      have hane : a.ID ≠ m.ID := by
        intro he
        simp [List.nodup_cons] at hids
        exact hids.1 m hmem he.symm
      rw [List.map_cons, if_neg hane, List.find?_cons_of_neg _ (by simpa using hp)]
      exact ih hfind (by simp [List.nodup_cons] at hids; exact hids.2)

/-- Deleting the row found for a path (through its id) removes every row
with that path, when paths are unique. -/
theorem findPath_after_delete (l : List Metadata) (p : String) (m : Metadata)
    (hfind : l.find? (fun x => x.Path = p) = some m)
    (hpaths : (l.map (fun x => x.Path)).Nodup) :
    (l.filter (fun x => x.ID ≠ m.ID)).find? (fun x => x.Path = p) = none := by
  rw [List.find?_eq_none]
  intro x hx
  simp only [List.mem_filter] at hx
  intro hxp
  have hmmem : m ∈ l := List.mem_of_find?_eq_some hfind
  have hmp : m.Path = p := by simpa using List.find?_some hfind
  have hxmem : x ∈ l := hx.1
  have hxp' : x.Path = p := by simpa using hxp
  have : x = m := List.inj_on_of_nodup_map hpaths hxmem hmmem (by rw [hxp', hmp])
  subst this
  simp at hx

/-- With unique row ids, GetByID on the id of a known row returns that
row. -/
theorem getByID_of_mem (st : Store) (m : Metadata) (hmem : m ∈ st.entries)
    (hids : (st.entries.map (fun x => x.ID)).Nodup) :
    getByID st m.ID = .ok m := by
  unfold getByID
  have hex : st.entries.find? (fun x => x.ID = m.ID) ≠ none := by
    rw [Ne, List.find?_eq_none]
    intro hall
    exact (hall m hmem) (by simp)
  obtain ⟨x, hx⟩ := Option.ne_none_iff_exists.mp hex
  have hxmem : x ∈ st.entries := List.mem_of_find?_eq_some hx.symm
  have hxid : x.ID = m.ID := by simpa using List.find?_some hx.symm
  have : x = m := List.inj_on_of_nodup_map hids hxmem hmem hxid
  rw [← hx, this]

/-- Shared round-trip lemma: Set always succeeds and a Get straight after
returns the bytes just written, for stores satisfying the repository
invariant. -/
theorem set_get_roundTrip (st : Store) (sid v : String) (hwf : st.Wf) :
    ∃ st', setTFState st sid v = .ok st' ∧ getTFState st' sid = .ok v := by
  unfold setTFState getTFState
  rw [metadataByExactPath_eq]
  cases hfind : findPath st (tfStatePath sid) with
  | none =>
    have hpe : pathExists st (tfStatePath sid) = false :=
      (findPath_none_iff_not_pathExists st _).mp hfind
    refine ⟨⟨st.entries ++ [⟨freshID st, tfStatePath sid, v⟩], st.nextID + 1⟩, ?_, ?_⟩
    · simp [NahError.isNotFound, createMetadata, hpe]
    · rw [metadataByExactPath_eq,
        findPath_append_singleton st (tfStatePath sid) ⟨freshID st, tfStatePath sid, v⟩ hfind rfl]
  | some m =>
    have hfind' : st.entries.find? (fun x => x.Path = tfStatePath sid) = some m := hfind
    have hmmem : m ∈ st.entries := List.mem_of_find?_eq_some hfind'
    have hgb : getByID st m.ID = .ok m := getByID_of_mem st m hmmem hwf.2
    refine ⟨⟨st.entries.map (fun x => if x.ID = m.ID then ⟨x.ID, m.Path, v⟩ else x),
      st.nextID⟩, ?_, ?_⟩
    · simp [updateMetadata, hgb]
    · rw [metadataByExactPath_eq]
      have := findPath_after_update st.entries (tfStatePath sid) v m hfind' hwf.2
      unfold findPath
      simp only [this]

/-- Shared deletion lemma: Delete always succeeds and removes every row at
the state path, for stores satisfying the repository invariant. -/
theorem delete_removes (st : Store) (sid : String) (hwf : st.Wf) :
    ∃ st', deleteTFState st sid = .ok st'
      ∧ findPath st' (tfStatePath sid) = none := by
  unfold deleteTFState
  rw [metadataByExactPath_eq]
  cases hfind : findPath st (tfStatePath sid) with
  | none => exact ⟨st, by simp [NahError.isNotFound], hfind⟩
  | some m =>
    have hfind' : st.entries.find? (fun x => x.Path = tfStatePath sid) = some m := hfind
    have hmmem : m ∈ st.entries := List.mem_of_find?_eq_some hfind'
    have hgb : getByID st m.ID = .ok m := getByID_of_mem st m hmmem hwf.2
    refine ⟨⟨st.entries.filter (fun x => x.ID ≠ m.ID), st.nextID⟩, ?_, ?_⟩
    · simp [deleteMetadata, hgb]
    · unfold findPath
      exact findPath_after_delete st.entries (tfStatePath sid) m hfind' hwf.1

/-- Shared unlock lemma: Unlock on a present lock succeeds, returns the
stored payload, and removes every row at the lock path. -/
theorem unlock_removes (st : Store) (sid : String) (m : Metadata)
    (hfind : findPath st (tfStateLockPath sid) = some m) (hwf : st.Wf) :
    ∃ st', unlockTFState st sid = .ok (true, m.Value, st')
      ∧ findPath st' (tfStateLockPath sid) = none := by
  unfold unlockTFState
  rw [metadataByExactPath_eq, hfind]
  have hfind' : st.entries.find? (fun x => x.Path = tfStateLockPath sid) = some m := hfind
  have hmmem : m ∈ st.entries := List.mem_of_find?_eq_some hfind'
  have hgb : getByID st m.ID = .ok m := getByID_of_mem st m hmmem hwf.2
  refine ⟨⟨st.entries.filter (fun x => x.ID ≠ m.ID), st.nextID⟩, ?_, ?_⟩
  · simp [deleteMetadata, hgb]
  · unfold findPath
    exact findPath_after_delete st.entries (tfStateLockPath sid) m hfind' hwf.1

/-- Getting an absent state entry reports NotFound. -/
theorem getTFState_absent (st : Store) (sid : String)
    (hfree : findPath st (tfStatePath sid) = none) :
    getTFState st sid = .error (.notFound "metadata" (tfStatePath sid)) := by
  unfold getTFState
  rw [metadataByExactPath_eq, hfree]

/-- Claim C1: TryLock on a state id whose lock path has no entry creates a
lock row holding the payload verbatim and reports already locked = false;
a second TryLock before any Unlock leaves the store untouched and reports
already locked = true with the first payload. -/
theorem tryLock_first_wins (st : Store) (sid p1 p2 : String)
    (hfree : findPath st (tfStateLockPath sid) = none) :
    ∃ st', tryLockTFState st sid p1 = .ok (false, "", st')
      ∧ tryLockTFState st' sid p2 = .ok (true, p1, st')
      ∧ findPath st' (tfStateLockPath sid) =
          some ⟨freshID st, tfStateLockPath sid, p1⟩ := by
  have hpe : pathExists st (tfStateLockPath sid) = false :=
    (findPath_none_iff_not_pathExists st _).mp hfree
  refine ⟨⟨st.entries ++ [⟨freshID st, tfStateLockPath sid, p1⟩], st.nextID + 1⟩, ?_, ?_, ?_⟩
  · unfold tryLockTFState
    rw [metadataByExactPath_eq, hfree]
    simp [NahError.isNotFound, createMetadata, hpe]
  · unfold tryLockTFState
    rw [metadataByExactPath_eq,
      findPath_append_singleton st (tfStateLockPath sid)
        ⟨freshID st, tfStateLockPath sid, p1⟩ hfree rfl]
  · exact findPath_append_singleton st (tfStateLockPath sid)
      ⟨freshID st, tfStateLockPath sid, p1⟩ hfree rfl (st.nextID + 1)

/-- Witness for C1: both TryLock results on a concrete fresh store. -/
theorem tryLock_first_wins_witness :
    ∃ st', tryLockTFState ⟨[], 0⟩ "s" "lockA" = .ok (false, "", st')
      ∧ tryLockTFState st' "s" "lockB" = .ok (true, "lockA", st')
      ∧ findPath st' (tfStateLockPath "s") =
          some ⟨freshID ⟨[], 0⟩, tfStateLockPath "s", "lockA"⟩ :=
  tryLock_first_wins ⟨[], 0⟩ "s" "lockA" "lockB" rfl

/-- Claim C8: a Set followed immediately by a Get returns exactly the
bytes passed to Set, whether or not a state entry existed before. -/
theorem set_then_get (st : Store) (sid v : String) (hwf : st.Wf) :
    ∃ st', setTFState st sid v = .ok st' ∧ getTFState st' sid = .ok v :=
  set_get_roundTrip st sid v hwf

/-- Witness for C8: round-trip through a concrete store that already holds
an entry for the state id (overwrite case). -/
theorem set_then_get_witness :
    ∃ st', setTFState ⟨[⟨"meta-0", tfStatePath "w", "old"⟩], 1⟩ "w" "new" = .ok st'
      ∧ getTFState st' "w" = .ok "new" :=
  set_then_get ⟨[⟨"meta-0", tfStatePath "w", "old"⟩], 1⟩ "w" "new" (by decide)

/-- Claim C9: Delete on a state id with no entry is a no-op success that
leaves the store unchanged, and a Get afterwards still reports
NotFound. -/
theorem delete_absent_noop (st : Store) (sid : String)
    (hfree : findPath st (tfStatePath sid) = none) :
    deleteTFState st sid = .ok st
    ∧ getTFState st sid = .error (.notFound "metadata" (tfStatePath sid)) := by
  constructor
  · unfold deleteTFState
    rw [metadataByExactPath_eq, hfree]
    simp [NahError.isNotFound]
  · exact getTFState_absent st sid hfree

/-- Witness for C9 on a concrete store holding an unrelated entry. -/
theorem delete_absent_noop_witness :
    deleteTFState ⟨[⟨"meta-0", tfStatePath "other", "x"⟩], 1⟩ "gone" =
        .ok ⟨[⟨"meta-0", tfStatePath "other", "x"⟩], 1⟩
    ∧ getTFState ⟨[⟨"meta-0", tfStatePath "other", "x"⟩], 1⟩ "gone" =
        .error (.notFound "metadata" (tfStatePath "gone")) :=
  delete_absent_noop ⟨[⟨"meta-0", tfStatePath "other", "x"⟩], 1⟩ "gone" (by decide)

/-- Claim C10: the derived paths are not injective across the two entry
kinds: the state path of `sid ++ ".lock"` is the lock path of `sid`, and
a Set on `sid ++ ".lock"` creates the very row that TryLock for `sid`
then reports as an existing lock. -/
theorem lockPath_collision :
    (∀ sid, tfStatePath (sid ++ ".lock") = tfStateLockPath sid)
    ∧ ∀ (st : Store) (sid v : String), findPath st (tfStateLockPath sid) = none →
        ∃ st', setTFState st (sid ++ ".lock") v = .ok st'
          ∧ ∀ q, tryLockTFState st' sid q = .ok (true, v, st') := by
  have hpath : ∀ sid, tfStatePath (sid ++ ".lock") = tfStateLockPath sid := by
    intro sid
    unfold tfStatePath tfStateLockPath
    rw [String.append_assoc]
  refine ⟨hpath, ?_⟩
  intro st sid v hfree
  have hpe : pathExists st (tfStateLockPath sid) = false :=
    (findPath_none_iff_not_pathExists st _).mp hfree
  refine ⟨⟨st.entries ++ [⟨freshID st, tfStateLockPath sid, v⟩], st.nextID + 1⟩, ?_, ?_⟩
  · unfold setTFState
    rw [hpath, metadataByExactPath_eq, hfree]
    simp [NahError.isNotFound, createMetadata, hpe]
  · intro q
    unfold tryLockTFState
    rw [metadataByExactPath_eq,
      findPath_append_singleton st (tfStateLockPath sid)
        ⟨freshID st, tfStateLockPath sid, v⟩ hfree rfl]

/-- Witness for C10: a state write to "x.lock" is read back as the lock of
"x". -/
theorem lockPath_collision_witness :
    ∃ st', setTFState ⟨[], 0⟩ ("x" ++ ".lock") "sneaky" = .ok st'
      ∧ ∀ q, tryLockTFState st' "x" q = .ok (true, "sneaky", st') :=
  lockPath_collision.2 ⟨[], 0⟩ "x" "sneaky" rfl

/-- Claim C2: on POST and DELETE /tfstate/(id) with a lock row present
whose payload parses, an absent or mismatched query ID yields 423 with the
stored lock payload as body and an untouched store, while a matching ID
proceeds: POST overwrites the state with the request body and returns 200,
DELETE removes the state entry and returns 200. -/
theorem post_delete_lock_enforcement (parse : String → Option TFStateLock)
    (st : Store) (sid provided body : String) (m : Metadata) (li : TFStateLock)
    (hwf : st.Wf)
    (hfind : findPath st (tfStateLockPath sid) = some m)
    (hparse : parse m.Value = some li) :
    ((provided = "" ∨ provided ≠ li.ID) →
        tfStatePost parse st sid provided body = (⟨423, m.Value⟩, st)
      ∧ tfStateDelete parse st sid provided = (⟨423, m.Value⟩, st))
    ∧ (provided ≠ "" → provided = li.ID →
        (∃ st', tfStatePost parse st sid provided body = (⟨200, ""⟩, st')
           ∧ getTFState st' sid = .ok body)
      ∧ (∃ st2, tfStateDelete parse st sid provided = (⟨200, ""⟩, st2)
           ∧ getTFState st2 sid = .error (.notFound "metadata" (tfStatePath sid)))) := by
  have hlock : getTFStateLock parse st sid = .ok (m.Value, some li) := by
    unfold getTFStateLock
    rw [metadataByExactPath_eq]
    simp only [hfind, hparse]
  constructor
  · intro h
    constructor
    · unfold tfStatePost
      simp only [hlock]
      rw [if_pos h]
    · unfold tfStateDelete
      simp only [hlock]
      rw [if_pos h]
  · intro hne hid
    have hcond : ¬ (provided = "" ∨ provided ≠ li.ID) := by
      push_neg
      exact ⟨hne, hid⟩
    constructor
    · obtain ⟨st', hset, hget⟩ := set_get_roundTrip st sid body hwf
      refine ⟨st', ?_, hget⟩
      unfold tfStatePost
      simp only [hlock]
      rw [if_neg hcond]
      unfold tfStatePostProceed
      rw [hset]
    · obtain ⟨st2, hdel, hnone⟩ := delete_removes st sid hwf
      refine ⟨st2, ?_, getTFState_absent st2 sid hnone⟩
      unfold tfStateDelete
      simp only [hlock]
      rw [if_neg hcond]
      unfold tfStateDeleteProceed
      rw [hdel]

/-- Concrete parse function for witnesses: recognizes the single payload
"sig-A" as the lock record with ID "A" (standing for a JSON codec). -/
def parseW : String → Option TFStateLock :=
  fun s => if s = "sig-A" then some ⟨"A", "", "", "", "", "", ""⟩ else none

/-- Concrete store for witnesses: one lock row for state id "w". -/
def stW : Store := ⟨[⟨"meta-0", tfStateLockPath "w", "sig-A"⟩], 1⟩

/-- Witness for C2: mismatched ID is refused with 423 on both verbs;
matching ID lets POST write the state. -/
theorem post_delete_lock_enforcement_witness :
    (tfStatePost parseW stW "w" "B" "newstate" = (⟨423, "sig-A"⟩, stW)
      ∧ tfStateDelete parseW stW "w" "B" = (⟨423, "sig-A"⟩, stW))
    ∧ (∃ st', tfStatePost parseW stW "w" "A" "newstate" = (⟨200, ""⟩, st')
         ∧ getTFState st' "w" = .ok "newstate") :=
  ⟨(post_delete_lock_enforcement parseW stW "w" "B" "newstate"
      ⟨"meta-0", tfStateLockPath "w", "sig-A"⟩ ⟨"A", "", "", "", "", "", ""⟩
      (by decide) (by decide) (by decide)).1 (Or.inr (by decide)),
   ((post_delete_lock_enforcement parseW stW "w" "A" "newstate"
      ⟨"meta-0", tfStateLockPath "w", "sig-A"⟩ ⟨"A", "", "", "", "", "", ""⟩
      (by decide) (by decide) (by decide)).2 (by decide) rfl).1⟩

/-- Claim C3: UNLOCK answers 200 (removing the lock row when present)
whenever no lock exists, or the stored payload does not parse, or the
provided ID matches; it answers 409 with the stored payload, leaving the
store untouched, exactly when the payload parses and the ID differs. -/
theorem unlock_lenient_spec (parse : String → Option TFStateLock)
    (st : Store) (sid provided : String) (hwf : st.Wf) :
    (findPath st (tfStateLockPath sid) = none →
        tfStateUnlock parse st sid provided = (⟨200, ""⟩, st))
    ∧ (∀ m, findPath st (tfStateLockPath sid) = some m → parse m.Value = none →
        ∃ st', tfStateUnlock parse st sid provided = (⟨200, ""⟩, st')
          ∧ findPath st' (tfStateLockPath sid) = none)
    ∧ (∀ m li, findPath st (tfStateLockPath sid) = some m → parse m.Value = some li →
        provided = li.ID →
        ∃ st', tfStateUnlock parse st sid provided = (⟨200, ""⟩, st')
          ∧ findPath st' (tfStateLockPath sid) = none)
    ∧ (∀ m li, findPath st (tfStateLockPath sid) = some m → parse m.Value = some li →
        provided ≠ li.ID →
        tfStateUnlock parse st sid provided = (⟨409, m.Value⟩, st)) := by
  refine ⟨?_, ?_, ?_, ?_⟩
  · intro hfree
    have hlock : getTFStateLock parse st sid =
        .error (.notFound "metadata" (tfStateLockPath sid)) := by
      unfold getTFStateLock
      rw [metadataByExactPath_eq, hfree]
    unfold tfStateUnlock
    simp only [hlock]
  · intro m hfind hparse
    have hlock : getTFStateLock parse st sid = .ok (m.Value, none) := by
      unfold getTFStateLock
      rw [metadataByExactPath_eq]
      simp only [hfind, hparse]
    obtain ⟨st', hunl, hgone⟩ := unlock_removes st sid m hfind hwf
    refine ⟨st', ?_, hgone⟩
    unfold tfStateUnlock
    simp only [hlock]
    unfold tfStateUnlockDo
    rw [hunl]
  · intro m li hfind hparse hid
    have hlock : getTFStateLock parse st sid = .ok (m.Value, some li) := by
      unfold getTFStateLock
      rw [metadataByExactPath_eq]
      simp only [hfind, hparse]
    obtain ⟨st', hunl, hgone⟩ := unlock_removes st sid m hfind hwf
    refine ⟨st', ?_, hgone⟩
    unfold tfStateUnlock
    simp only [hlock]
    rw [if_pos hid]
    unfold tfStateUnlockDo
    rw [hunl]
  · intro m li hfind hparse hid
    have hlock : getTFStateLock parse st sid = .ok (m.Value, some li) := by
      unfold getTFStateLock
      rw [metadataByExactPath_eq]
      simp only [hfind, hparse]
    unfold tfStateUnlock
    simp only [hlock]
    rw [if_neg hid]

/-- Witness for C3: a mismatched ID is refused with 409 and a matching ID
unlocks, on a concrete store. -/
theorem unlock_lenient_spec_witness :
    tfStateUnlock parseW stW "w" "B" = (⟨409, "sig-A"⟩, stW)
    ∧ ∃ st', tfStateUnlock parseW stW "w" "A" = (⟨200, ""⟩, st')
        ∧ findPath st' (tfStateLockPath "w") = none :=
  ⟨(unlock_lenient_spec parseW stW "w" "B" (by decide)).2.2.2
      ⟨"meta-0", tfStateLockPath "w", "sig-A"⟩ ⟨"A", "", "", "", "", "", ""⟩
      (by decide) (by decide) (by decide),
   (unlock_lenient_spec parseW stW "w" "A" (by decide)).2.2.1
      ⟨"meta-0", tfStateLockPath "w", "sig-A"⟩ ⟨"A", "", "", "", "", "", ""⟩
      (by decide) (by decide) rfl⟩

/-! ## Chaos engine proofs -/

theorem foldl_add_nonneg (l : List Int) (init : Int) (h0 : 0 ≤ init)
    (h : ∀ w ∈ l, 0 ≤ w) : 0 ≤ l.foldl (· + ·) init := by
  induction l generalizing init with
  | nil => simpa using h0
  | cons a rest ih =>
    simp only [List.foldl_cons]
    refine ih (init + a) ?_ (fun w hw => h w (by simp [hw]))
    have := h a (by simp)
    omega

theorem weightedPick_mem (l : List (Int × Int)) (target : Nat) (cur ty : Int)
    (h : weightedPick l target cur = some ty) : ty ∈ l.map Prod.fst := by
  induction l generalizing cur with
  | nil => simp [weightedPick] at h
  | cons a rest ih =>
    obtain ⟨t, w⟩ := a
    rw [weightedPick] at h
    by_cases hc : (target : Int) < cur + w
    · rw [if_pos hc] at h
      simp only [Option.some_inj] at h
      simp [h]
    · rw [if_neg hc] at h
      simp only [List.map_cons, List.mem_cons]
      exact Or.inr (ih (cur + w) h)

/-- Generator model whose draws are all zero (used to instantiate
universally quantified chaos theorems at concrete inputs). -/
def Rzero : RngModel Unit := ⟨fun s => (0, s), fun _ s => (0, s)⟩

/-- Generator model whose Float64 draw is exactly one half. -/
def Rhalf : RngModel Unit := ⟨fun s => (1/2, s), fun _ s => (0, s)⟩

/-- The default chaos configuration (error types 503/500/429 with weights
3/2/1), enabled. -/
def cfgDefault : ChaosConfig :=
  { Enabled := true }

/-- Unfolding equation for `selectWeightedCore` on a non-empty type
list. -/
theorem selectWeightedCore_cons (R : RngModel σ) (t0 : Int) (rest weights : List Int)
    (s : σ) :
    selectWeightedCore R (t0 :: rest) weights s =
      (if weights.length ≠ (t0 :: rest).length then
        some ((t0 :: rest).getD (R.intn (t0 :: rest).length s).1 0,
          (R.intn (t0 :: rest).length s).2)
      else
        if weights.foldl (· + ·) 0 = 0 then some (t0, s)
        else if weights.foldl (· + ·) 0 < 0 then none
        else
          some ((weightedPick ((t0 :: rest).zip weights)
              (R.intn (weights.foldl (· + ·) 0).toNat s).1 0).getD t0,
            (R.intn (weights.foldl (· + ·) 0).toNat s).2)) := rfl

/-- List-level membership lemma behind claim C7. -/
theorem selectWeightedCore_in (σ : Type) (R : RngModel σ) (types weights : List Int)
    (s : σ) (hne : types ≠ [])
    (hw : ∀ w ∈ weights, 0 ≤ w)
    (hintn : ∀ (n : Nat) (s0 : σ), 0 < n → (R.intn n s0).1 < n) :
    (∃ c s', selectWeightedCore R types weights s = some (c, s') ∧ c ∈ types)
    ∧ (weights.length ≠ types.length →
        selectWeightedCore R types weights s =
          some (types.getD (R.intn types.length s).1 0, (R.intn types.length s).2)) := by
  obtain ⟨t0, rest, rfl⟩ := List.exists_cons_of_ne_nil hne
  have hlenpos : 0 < (t0 :: rest).length := by simp
  have hmisEq : weights.length ≠ (t0 :: rest).length →
      selectWeightedCore R (t0 :: rest) weights s =
        some ((t0 :: rest).getD (R.intn (t0 :: rest).length s).1 0,
          (R.intn (t0 :: rest).length s).2) := by
    intro hmis
    rw [selectWeightedCore_cons, if_pos hmis]
  refine ⟨?_, hmisEq⟩
  by_cases hmis : weights.length ≠ (t0 :: rest).length
  · have hk := hintn (t0 :: rest).length s hlenpos
    refine ⟨(t0 :: rest).getD (R.intn (t0 :: rest).length s).1 0,
      (R.intn (t0 :: rest).length s).2, hmisEq hmis, ?_⟩
    rw [List.getD_eq_getElem _ _ hk]
    exact List.getElem_mem hk
  · have htotnn : 0 ≤ weights.foldl (· + ·) 0 :=
      foldl_add_nonneg weights 0 le_rfl hw
    by_cases hz : weights.foldl (· + ·) 0 = 0
    · refine ⟨t0, s, ?_, by simp⟩
      rw [selectWeightedCore_cons, if_neg hmis, if_pos hz]
    · refine ⟨(weightedPick ((t0 :: rest).zip weights)
        (R.intn (weights.foldl (· + ·) 0).toNat s).1 0).getD t0,
        (R.intn (weights.foldl (· + ·) 0).toNat s).2, ?_, ?_⟩
      · rw [selectWeightedCore_cons, if_neg hmis, if_neg hz,
          if_neg (by omega : ¬ weights.foldl (· + ·) 0 < 0)]
      · cases hpick : weightedPick ((t0 :: rest).zip weights)
            (R.intn (weights.foldl (· + ·) 0).toNat s).1 0 with
        | none => simp
        | some ty =>
          rw [Option.getD_some]
          have hmem := weightedPick_mem _ _ _ _ hpick
          obtain ⟨⟨a, b⟩, hab, rfl⟩ := List.mem_map.mp hmem
          exact (List.of_mem_zip hab).1

/-- Claim C7 (amended): for a non-empty status-code list and nonnegative
weights, weighted selection returns a member of the status-code list; when
the weight count differs from the status-code count it falls back to a
uniform index draw over the status codes, still inside the list. -/
theorem selectWeighted_in_types (σ : Type) (R : RngModel σ) (cfg : ChaosConfig) (s : σ)
    (hne : cfg.ErrorTypes ≠ [])
    (hw : ∀ w ∈ cfg.ErrorWeights, 0 ≤ w)
    (hintn : ∀ (n : Nat) (s0 : σ), 0 < n → (R.intn n s0).1 < n) :
    (∃ c s', selectWeightedErrorType R cfg s = some (c, s') ∧ c ∈ cfg.ErrorTypes)
    ∧ (cfg.ErrorWeights.length ≠ cfg.ErrorTypes.length →
        selectWeightedErrorType R cfg s =
          some (cfg.ErrorTypes.getD (R.intn cfg.ErrorTypes.length s).1 0,
            (R.intn cfg.ErrorTypes.length s).2)) :=
  selectWeightedCore_in σ R cfg.ErrorTypes cfg.ErrorWeights s hne hw hintn

/-- Chaos configuration with a weight list shorter than the status-code
list (uniform fallback case). -/
def cfgMis : ChaosConfig :=
  { Enabled := true, ErrorTypes := [500, 503], ErrorWeights := [1] }

/-- Witness for C7: mismatched weight and status lists still select from
inside the status list. -/
theorem selectWeighted_in_types_witness :
    ∃ c s', selectWeightedErrorType Rzero cfgMis () = some (c, s')
      ∧ c ∈ cfgMis.ErrorTypes :=
  (selectWeighted_in_types Unit Rzero cfgMis () (by decide) (by decide)
    (fun n s0 hn => hn)).1

/-- Chaos configuration with matched-length but negative weights. -/
def cfgNegW : ChaosConfig :=
  { Enabled := true, ErrorTypes := [500, 503], ErrorWeights := [-2, 1] }

/-- Counterexample for C7 as stated: with status codes [500, 503] and the
(length-matching) weight list [-2, 1] the weight total is negative, the
source reaches `rand.Intn` with a non-positive bound and panics (modelled
as `none`), so no member of the status-code list is returned. -/
theorem selectWeighted_neg_cex :
    cfgNegW.ErrorTypes ≠ []
    ∧ cfgNegW.ErrorWeights.length = cfgNegW.ErrorTypes.length
    ∧ selectWeightedErrorType Rzero cfgNegW () = none := by
  refine ⟨by decide, by decide, ?_⟩
  decide

/-- Claim C4 (amended): the error-injection step injects exactly when the
rate is positive and the drawn float satisfies draw ≤ rate (the source
skips on draw > rate, so equality injects); a rate of 0 never injects and
consumes no draw, and a rate of 1 always injects since draws lie in
[0,1). -/
theorem maybeInject_threshold (σ : Type) (R : RngModel σ) (cfg : ChaosConfig)
    (rate d : ℚ) (s s1 s2 : σ) (c : Int)
    (hf : R.float64 s = (d, s1)) (hd1 : d < 1)
    (hsel : selectWeightedErrorType R cfg s1 = some (c, s2)) :
    ((∃ e s', maybeInjectError R cfg rate s = some (some e, s')) ↔ 0 < rate ∧ d ≤ rate)
    ∧ (rate = 0 → maybeInjectError R cfg rate s = some (none, s))
    ∧ (rate = 1 → maybeInjectError R cfg rate s = some (some (errorOfCode c), s2)) := by
  have hbody : ∀ hr : ¬ rate ≤ 0, maybeInjectError R cfg rate s =
      if d > rate then some (none, s1)
      else some (some (errorOfCode c), s2) := by
    intro hr
    unfold maybeInjectError
    rw [if_neg hr, hf]
    show (if d > rate then some (none, s1)
      else match selectWeightedErrorType R cfg s1 with
        | none => none
        | some cs => some (some (errorOfCode cs.1), cs.2)) = _
    by_cases hdr : d > rate
    · rw [if_pos hdr, if_pos hdr]
    · rw [if_neg hdr, if_neg hdr, hsel]
  refine ⟨⟨?_, ?_⟩, ?_, ?_⟩
  · rintro ⟨e, s', he⟩
    by_cases hr : rate ≤ 0
    · rw [maybeInjectError, if_pos hr] at he
      simp at he
    · rw [hbody hr] at he
      by_cases hdr : d > rate
      · rw [if_pos hdr] at he
        simp at he
      · exact ⟨not_le.mp hr, not_lt.mp hdr⟩
  · rintro ⟨hr, hdr⟩
    rw [hbody (not_le.mpr hr), if_neg (not_lt.mpr hdr)]
    exact ⟨errorOfCode c, s2, rfl⟩
  · intro h0
    rw [maybeInjectError, if_pos (le_of_eq h0)]
  · intro h1
    have hr : (0 : ℚ) < rate := by rw [h1]; norm_num
    have hdr : d ≤ rate := by rw [h1]; exact le_of_lt hd1
    rw [hbody (not_le.mpr hr), if_neg (not_lt.mpr hdr)]

/-- Witness for C4 (amended): rate 1 with draw 0 injects the top-weighted
default error type. -/
theorem maybeInject_threshold_witness :
    maybeInjectError Rzero cfgDefault 1 () = some (some (errorOfCode 503), ()) :=
  (maybeInject_threshold Unit Rzero cfgDefault 1 0 () () () 503 rfl (by norm_num)
    (by decide)).2.2 rfl

/-- Counterexample for C4 as stated: with rate one half and a drawn float
of exactly one half, the source injects an error although draw < rate is
false — the comparison that skips injection is draw > rate, not
draw ≥ rate. -/
theorem maybeInject_half_cex :
    maybeInjectError Rhalf cfgDefault (1/2) () = some (some (errorOfCode 503), ())
    ∧ ¬ ((1 : ℚ)/2 < (1 : ℚ)/2) := by
  constructor
  · have hsel : selectWeightedErrorType Rhalf cfgDefault () = some (503, ()) := by
      decide
    unfold maybeInjectError
    rw [if_neg (by norm_num : ¬ (1 : ℚ)/2 ≤ 0)]
    have hf : Rhalf.float64 () = ((1 : ℚ)/2, ()) := rfl
    rw [hf]
    show (if (1 : ℚ)/2 > (1 : ℚ)/2 then some (none, ())
      else match selectWeightedErrorType Rhalf cfgDefault () with
        | none => none
        | some cs => some (some (errorOfCode cs.1), cs.2)) = _
    rw [if_neg (by norm_num : ¬ (1 : ℚ)/2 > (1 : ℚ)/2), hsel]
  · norm_num

/-- Claim C5 (amended): a bypass header equal to the exact string "true"
makes every apply-chaos entry point return at once, for every
configuration and generator: no injected error, no requested sleep, and
the generator state untouched (no draw consumed). -/
theorem bypass_header_true (σ : Type) (R : RngModel σ) (cfg : ChaosConfig)
    (req : ChaosRequest) (method : String) (s : σ)
    (h : req.noChaosHeader = "true") :
    applyProjectsChaos R cfg req method s = some (none, [], s)
    ∧ applyInstancesChaos R cfg req s = some (none, [], s)
    ∧ applyMetadataChaos R cfg req s = some (none, [], s) := by
  refine ⟨?_, ?_, ?_⟩
  · cases hEn : cfg.Enabled <;> simp [applyProjectsChaos, hEn, h]
  · cases hEn : cfg.Enabled <;> simp [applyInstancesChaos, hEn, h]
  · cases hEn : cfg.Enabled <;> simp [applyMetadataChaos, hEn, h]

/-- Chaos configuration with full error rates and a large global latency
range (exercising the bypass against everything at once). -/
def cfgFull : ChaosConfig :=
  { Enabled := true, GlobalLatencyRange := some ⟨100, 200⟩,
    ProjectsErrorRate := 1, ProjectsGetErrorRate := 1,
    InstancesErrorRate := 1, MetadataErrorRate := 1 }

/-- Request carrying the bypass header with value "true". -/
def reqTrue : ChaosRequest := { noChaosHeader := "true" }

/-- Witness for C5 (amended): bypass beats error rate 1 and a configured
latency range on all three entry points. -/
theorem bypass_header_true_witness :
    applyProjectsChaos Rzero cfgFull reqTrue "GET" () = some (none, [], ())
    ∧ applyInstancesChaos Rzero cfgFull reqTrue () = some (none, [], ())
    ∧ applyMetadataChaos Rzero cfgFull reqTrue () = some (none, [], ()) :=
  bypass_header_true Unit Rzero cfgFull reqTrue "GET" () rfl

/-- Chaos configuration with projects error rate 1 and a single 500 error
type. -/
def cfgProjErr : ChaosConfig :=
  { Enabled := true, ProjectsErrorRate := 1, ErrorTypes := [500], ErrorWeights := [1] }

/-- Request carrying the bypass header with value "1". -/
def reqOne : ChaosRequest := { noChaosHeader := "1" }

/-- Counterexample for C5 as stated: the header value "1" is truthy by
this repository own bool-parsing convention (chaos.getBoolEnv accepts
true/1/yes/on), yet ApplyProjectsChaos does not bypass — it compares the
header against the exact string "true" — and with error rate 1 it injects
an error. -/
theorem bypass_truthy_cex :
    isTruthy "1" = true
    ∧ applyProjectsChaos Rzero cfgProjErr reqOne "PUT" () =
        some (some (errorOfCode 500), [], ()) := by
  constructor
  · decide
  · decide

/-- Claim C6 (amended): a forced-latency header that parses to a strictly
positive integer n makes the latency step request exactly one sleep of n
milliseconds and bypass range-based latency entirely, consuming no draw;
a value of 0 does not short-circuit (see the counterexample). -/
theorem forced_latency_exact (σ : Type) (R : RngModel σ) (cfg : ChaosConfig)
    (req : ChaosRequest) (rr : Option LatencyRange) (s : σ) (n : Int)
    (hn : atoi req.latencyHeader = some n) (hpos : 0 < n) :
    applyLatency R cfg req rr s = ([n], s) := by
  have hne : req.latencyHeader ≠ "" := by
    intro h0
    rw [h0, show atoi "" = none from rfl] at hn
    exact Option.noConfusion hn
  unfold applyLatency
  rw [if_pos hne, hn]
  show (if n > 0 then ([n], s) else rangeLatency R cfg rr s) = ([n], s)
  rw [if_pos hpos]

/-- Request carrying the forced-latency header with value "7". -/
def reqSeven : ChaosRequest := { latencyHeader := "7" }

/-- Witness for C6 (amended): a forced 7 ms beats both a category range
and the global range. -/
theorem forced_latency_exact_witness :
    applyLatency Rzero cfgFull reqSeven (some ⟨100, 200⟩) () = ([7], ()) :=
  forced_latency_exact Unit Rzero cfgFull reqSeven (some ⟨100, 200⟩) () 7
    (by decide) (by norm_num)

/-- Request carrying the forced-latency header with value "0". -/
def reqZeroLat : ChaosRequest := { latencyHeader := "0" }

/-- Chaos configuration with the degenerate global latency range 5-5. -/
def cfgRange5 : ChaosConfig :=
  { Enabled := true, GlobalLatencyRange := some ⟨5, 5⟩ }

/-- Counterexample for C6 as stated: the forced-latency header "0" is a
non-negative integer, but the source only honours values strictly greater
than 0 — with "0" it falls through to range-based latency and requests a
5 ms sleep from the configured 5-5 range instead of sleeping exactly 0 ms
and skipping the range. -/
theorem forced_latency_zero_cex :
    atoi "0" = some 0
    ∧ applyLatency Rzero cfgRange5 reqZeroLat none () = ([5], ())
    ∧ ([5] : List Int) ≠ [0] ∧ ([5] : List Int) ≠ ([] : List Int) := by
  refine ⟨by decide, by decide, by decide, by decide⟩

end Nah
